import Mathlib

/-!
# Verification of the retro-audio synthesis engine

A shallow embedding of the core of the `retro-audio` chiptune engine:
the ADSR envelope (`src/synthesis/Envelope.ts`), the voice lifecycle and
pool (`src/core/Voice.ts`, `src/core/VoicePool.ts`), the LFSR noise
generator (`src/core/NoiseChannel.ts`), the arpeggiator
(`src/synthesis/Arpeggiator.ts`), the pattern clock and the sequencer's
note-duration inference (`src/playback/Clock.ts`, `Sequencer.ts`), and
the harmonic tables of the pulse and wave channels.

Times, amplitudes and frequencies that the source handles as JS numbers
are modelled as `ℚ` where only field arithmetic and comparisons occur,
and as `ℝ` where transcendental functions (`Math.pow`, `Math.sin`,
`Math.cos`) are involved.  Scheduled Web-Audio parameter automation is
modelled as an explicit list of automation events.
-/

/-- `MIN_EXPONENTIAL_VALUE` from `src/utils/constants.ts`: minimum value
used to avoid exponential-ramp issues (0.001). -/
def MIN_EXPONENTIAL_VALUE : ℚ := 1 / 1000

/-- Curve kind for an envelope phase (`'linear' | 'exponential'`). -/
inductive Curve where
  | linear
  | exponential
deriving DecidableEq, Repr

/-- `EnvelopeConfig` from `src/types`: durations in seconds, sustain a
level in [0,1]; the three curve fields are optional in the source. -/
structure EnvelopeConfig where
  attack : ℚ
  decay : ℚ
  sustain : ℚ
  release : ℚ
  attackCurve : Option Curve := Option.none
  decayCurve : Option Curve := Option.none
  releaseCurve : Option Curve := Option.none
deriving DecidableEq, Repr

/-- The resolved configuration an `Envelope` instance stores: the
constructor of `src/synthesis/Envelope.ts` fills in the curve defaults
(`linear` attack, `exponential` decay and release). -/
structure Envelope where
  attack : ℚ
  decay : ℚ
  sustain : ℚ
  release : ℚ
  attackCurve : Curve
  decayCurve : Curve
  releaseCurve : Curve
deriving DecidableEq, Repr

/-- `new Envelope(context, config)`: apply the curve defaults. -/
def Envelope.ofConfig (c : EnvelopeConfig) : Envelope :=
  { attack := c.attack
    decay := c.decay
    sustain := c.sustain
    release := c.release
    attackCurve := c.attackCurve.getD Curve.linear
    decayCurve := c.decayCurve.getD Curve.exponential
    releaseCurve := c.releaseCurve.getD Curve.exponential }

/-- One Web-Audio parameter automation call issued by the engine
(`cancelScheduledValues`, `setValueAtTime`, `linearRampToValueAtTime`,
`exponentialRampToValueAtTime`). -/
inductive AutoEvent where
  | cancel (t : ℚ)
  | setValue (v t : ℚ)
  | linearRamp (v t : ℚ)
  | expRamp (v t : ℚ)
deriving DecidableEq, Repr

/-- The target value and target time of a value-carrying automation
event; `cancel` carries no value. -/
def AutoEvent.valueTimeOf : AutoEvent → Option (ℚ × ℚ)
  | .cancel _ => Option.none
  | .setValue v t => some (v, t)
  | .linearRamp v t => some (v, t)
  | .expRamp v t => some (v, t)

/-- The value scheduled at time `t` by a list of automation events: the
target of the last value-carrying event aimed at exactly `t` (later
calls supersede earlier ones in Web Audio). -/
def scheduledValueAt (evs : List AutoEvent) (t : ℚ) : Option ℚ :=
  evs.foldl
    (fun acc e =>
      match e.valueTimeOf with
      | some (v, tt) => if tt = t then some v else acc
      | Option.none => acc)
    Option.none

/-- `Envelope.triggerAttack(param, startTime, velocity)`: the list of
automation events issued on the gain parameter, and the returned
absolute time at which sustain begins (`decayEnd`). -/
def Envelope.triggerAttack (env : Envelope) (startTime velocity : ℚ) :
    List AutoEvent × ℚ :=
  let peakLevel := velocity
  let sustainLevel := env.sustain * velocity
  let attackEnd := startTime + env.attack
  let attackEvents :=
    if env.attackCurve = Curve.exponential ∧ env.attack > 1 / 1000 then
      [AutoEvent.setValue MIN_EXPONENTIAL_VALUE startTime,
       AutoEvent.expRamp (max peakLevel MIN_EXPONENTIAL_VALUE) attackEnd]
    else
      [AutoEvent.linearRamp peakLevel attackEnd]
  let decayEnd := attackEnd + env.decay
  let decayEvents :=
    if env.decayCurve = Curve.exponential ∧ env.decay > 1 / 1000 ∧
        sustainLevel > MIN_EXPONENTIAL_VALUE then
      [AutoEvent.expRamp (max sustainLevel MIN_EXPONENTIAL_VALUE) decayEnd]
    else
      [AutoEvent.linearRamp sustainLevel decayEnd]
  ([AutoEvent.cancel startTime, AutoEvent.setValue 0 startTime]
      ++ attackEvents ++ decayEvents,
   decayEnd)

/-- `Envelope.triggerRelease(param, startTime)`: the events issued on
the gain parameter and the returned release-end time.  `paramValue`
models `param.value` at the moment of the call. -/
def Envelope.triggerRelease (env : Envelope) (startTime paramValue : ℚ) :
    List AutoEvent × ℚ :=
  let currentValue :=
    if paramValue ≤ MIN_EXPONENTIAL_VALUE then MIN_EXPONENTIAL_VALUE
    else paramValue
  let releaseEnd := startTime + env.release
  let rampEvents :=
    if env.releaseCurve = Curve.exponential ∧ env.release > 1 / 1000 ∧
        currentValue > MIN_EXPONENTIAL_VALUE then
      [AutoEvent.expRamp MIN_EXPONENTIAL_VALUE releaseEnd,
       AutoEvent.setValue 0 releaseEnd]
    else
      [AutoEvent.linearRamp 0 releaseEnd]
  ([AutoEvent.cancel startTime, AutoEvent.setValue currentValue startTime]
      ++ rampEvents,
   releaseEnd)

/-!
## Voice (`src/core/Voice.ts`)

A voice owns a channel + envelope (both set together by `configure`,
modelled by the single `envelope` option), an active flag, a start time,
the gain value (`currentAmplitude`) and the pending deferred
release-completion timer (`releaseTimeout`, carrying the computed
release-end time).  Channel-node bookkeeping (oscillator wiring) has no
bearing on the lifecycle claims and is not modelled.
-/

/-- Runtime state of one `Voice`. -/
structure VoiceState where
  envelope : Option Envelope
  isActive : Bool
  startTime : ℚ
  currentAmplitude : ℚ
  releaseTimeout : Option ℚ
deriving DecidableEq, Repr

/-- `new Voice(context, destination)`: gain initialised to 0, inactive,
unconfigured, no pending timer. -/
def VoiceState.create : VoiceState :=
  { envelope := Option.none
    isActive := false
    startTime := 0
    currentAmplitude := 0
    releaseTimeout := Option.none }

/-- `Voice.configure(instrument)`: replaces channel and envelope.  Note
that it does not touch the pending release timer. -/
def VoiceState.configure (s : VoiceState) (envCfg : EnvelopeConfig) : VoiceState :=
  { s with envelope := some (Envelope.ofConfig envCfg) }

/-- `Voice.noteOn(frequency, velocity, time)`: throws when unconfigured;
otherwise clears any pending release timeout, marks the voice active and
records the start time (the channel start and the envelope attack go to
the audio backend and do not change the modelled voice state). -/
def VoiceState.noteOn (s : VoiceState) (frequency velocity time : ℚ) :
    Except String VoiceState :=
  match s.envelope with
  | Option.none => Except.error "Voice not configured. Call configure() first."
  | some _ =>
      Except.ok { s with
        releaseTimeout := Option.none
        isActive := true
        startTime := time }

/-- `Voice.noteOff(time)`: no-op when unconfigured; otherwise triggers
the envelope release and schedules the deferred idle transition at the
returned release-end time. -/
def VoiceState.noteOff (s : VoiceState) (time : ℚ) : VoiceState :=
  match s.envelope with
  | Option.none => s
  | some env =>
      { s with releaseTimeout := some (env.triggerRelease time s.currentAmplitude).2 }

/-- The body of the `setTimeout` callback scheduled by `noteOff`: marks
the voice inactive and forgets the timer. -/
def VoiceState.fireRelease (s : VoiceState) : VoiceState :=
  { s with isActive := false, releaseTimeout := Option.none }

/-- `Voice.stop()`: clears any pending release timeout, marks the voice
inactive and immediately silences the gain. -/
def VoiceState.stop (s : VoiceState) : VoiceState :=
  { s with
    releaseTimeout := Option.none
    isActive := false
    currentAmplitude := 0 }

/-- Labels of the events that can touch a voice's lifecycle state. -/
inductive VoiceLabel where
  | noteOn (frequency velocity time : ℚ)
  | noteOff (time : ℚ)
  | stop
  | fireRelease
deriving DecidableEq, Repr

/-- Whether a label is a `noteOff` (the only action that can re-arm the
deferred release timer). -/
def VoiceLabel.isNoteOff : VoiceLabel → Bool
  | .noteOff _ => true
  | _ => false

/-- Small-step semantics of a single voice under the cooperative event
loop: public API calls may happen at any time, while the deferred
release-completion callback can only run when its timer is pending. -/
inductive VoiceStep : VoiceState → VoiceLabel → VoiceState → Prop where
  | noteOn (s : VoiceState) (f v t : ℚ) (s' : VoiceState)
      (h : s.noteOn f v t = Except.ok s') : VoiceStep s (.noteOn f v t) s'
  | noteOff (s : VoiceState) (t : ℚ) : VoiceStep s (.noteOff t) (s.noteOff t)
  | stop (s : VoiceState) : VoiceStep s .stop s.stop
  | fireRelease (s : VoiceState) (e : ℚ) (h : s.releaseTimeout = some e) :
      VoiceStep s .fireRelease s.fireRelease

/-- A finite run of voice events. -/
def VoiceTrace : VoiceState → List VoiceLabel → VoiceState → Prop
  | s, [], s' => s = s'
  | s, l :: ls, s' => ∃ m, VoiceStep s l m ∧ VoiceTrace m ls s'

/-!
## VoicePool (`src/core/VoicePool.ts`)

`acquire` returns the index of the voice handed out (the source returns
the `Voice` object itself; indices name the same object inside the
updated pool) together with the updated pool, or `none` for the
`VoiceLimitReached` failure.
-/

/-- Voice-stealing policy (`VoiceConfig['stealingMode']`). -/
inductive StealingMode where
  | oldest
  | quietest
  | none
deriving DecidableEq, Repr

/-- State of a `VoicePool`. -/
structure VoicePool where
  voices : List VoiceState
  maxVoices : ℕ
  stealingMode : StealingMode
deriving DecidableEq, Repr

/-- `new VoicePool(context, destination, config)`: starts empty. -/
def VoicePool.create (maxVoices : ℕ) (mode : StealingMode) : VoicePool :=
  { voices := [], maxVoices := maxVoices, stealingMode := mode }

/-- `VoicePool.stealVoice()`: on `none` fail; otherwise pick among the
active voices the one minimising start time (`oldest`) or current
amplitude (`quietest`) with JS `reduce`, force-stop it, and hand it out.
The defensive no-active-voice branch returns `voices[0] ?? null` without
stopping anything. -/
def VoicePool.stealVoice (p : VoicePool) : Option ℕ × VoicePool :=
  if p.stealingMode = StealingMode.none then (Option.none, p)
  else
    match p.voices.enum.filter (fun iv => iv.2.isActive) with
    | [] => (if p.voices.isEmpty then Option.none else some 0, p)
    | a :: rest =>
      let victim :=
        if p.stealingMode = StealingMode.oldest then
          rest.foldl (fun x y => if x.2.startTime < y.2.startTime then x else y) a
        else
          rest.foldl
            (fun x y => if x.2.currentAmplitude < y.2.currentAmplitude then x else y) a
      (some victim.1, { p with voices := p.voices.set victim.1 victim.2.stop })

/-- `VoicePool.acquire()`: first any inactive voice, else a fresh voice
while under the limit, else attempt stealing. -/
def VoicePool.acquire (p : VoicePool) : Option ℕ × VoicePool :=
  match p.voices.findIdx? (fun v => !v.isActive) with
  | some i => (some i, p)
  | Option.none =>
    if p.voices.length < p.maxVoices then
      (some p.voices.length, { p with voices := p.voices ++ [VoiceState.create] })
    else
      p.stealVoice

/-- `VoicePool.getTotalCount()`. -/
def VoicePool.getTotalCount (p : VoicePool) : ℕ := p.voices.length

/-- The pool after `n` successive `acquire()` calls. -/
def VoicePool.acquireN (p : VoicePool) : ℕ → VoicePool
  | 0 => p
  | n + 1 => (p.acquireN n).acquire.2

/-!
## LFSR noise (`src/core/NoiseChannel.ts`, `NoiseGenerator`)

`generateLFSRBuffer(length, bits)`: register seeded to all ones, each
step emits bit 0 mapped to ±1, then shifts right inserting the XOR of
bits 0 and 1 at the top.
-/

/-- `LFSR_LONG_LENGTH` (15-bit mode buffer length). -/
def LFSR_LONG_LENGTH : ℕ := 32767

/-- `LFSR_SHORT_LENGTH` (7-bit mode buffer length). -/
def LFSR_SHORT_LENGTH : ℕ := 127

/-- One LFSR update of the loop body:
`bit = ((lfsr >> 0) ^ (lfsr >> 1)) & 1; lfsr = (lfsr >> 1) | (bit << (bits - 1))`. -/
def lfsrStep (bits : ℕ) (lfsr : ℕ) : ℕ :=
  let bit := ((lfsr >>> 0) ^^^ (lfsr >>> 1)) &&& 1
  (lfsr >>> 1) ||| (bit <<< (bits - 1))

/-- The all-ones seed `(1 << bits) - 1`. -/
def lfsrSeed (bits : ℕ) : ℕ := (1 <<< bits) - 1

/-- Walk `k` LFSR steps from `x`, returning the final register unless
the walk revisits the seed strictly before the end (then `none`).
Written with a bare `Nat.rec` so that kernel evaluation of long walks
stays iterative. -/
def lfsrProbe (bits k : ℕ) : ℕ → Option ℕ :=
  Nat.rec (motive := fun _ => ℕ → Option ℕ)
    (fun x => some x)
    (fun _ ih x =>
      if lfsrStep bits x = lfsrSeed bits then Option.none
      else ih (lfsrStep bits x))
    k

/-- Sample `i` of the noise buffer: bit 0 of the register after `i`
steps, mapped to ±1 (`data[i] = (lfsr & 1) ? 1 : -1`). -/
def noiseSample (bits i : ℕ) : ℚ :=
  if ((lfsrStep bits)^[i] (lfsrSeed bits)) &&& 1 ≠ 0 then 1 else -1

/-- The generated noise buffer of a given length. -/
def generateLFSRBuffer (length bits : ℕ) : List ℚ :=
  (List.range length).map (noiseSample bits)

/-!
## Arpeggiator (`src/synthesis/Arpeggiator.ts`)
-/

/-- `semitonesToRatio(semitones) = Math.pow(2, semitones / 12)` from
`src/utils/noteToFrequency.ts`. -/
noncomputable def semitonesToRatio (semitones : ℚ) : ℝ :=
  (2 : ℝ) ^ ((semitones : ℝ) / 12)

/-- One scheduled `param.setValueAtTime(freq, time)` call of the
arpeggiator. -/
structure ArpEvent where
  freq : ℝ
  time : ℚ

/-- `Arpeggiator.start(param, baseFreq, offsets, speed, startTime,
duration)`: the full pre-scheduled list of frequency-set events. -/
noncomputable def Arpeggiator.start (baseFreq : ℝ) (offsets : List ℚ)
    (speed startTime duration : ℚ) : List ArpEvent :=
  let safeOffsets := if offsets.length > 0 then offsets else [0]
  let stepDuration := 1 / speed
  let totalSteps := (⌈duration / stepDuration⌉).toNat
  (List.range totalSteps).map fun i =>
    let semitones := safeOffsets.getD (i % safeOffsets.length) 0
    { freq := baseFreq * semitonesToRatio semitones
      time := startTime + (i : ℚ) * stepDuration }

/-!
## Clock (`src/playback/Clock.ts`) and the sequencer's note-duration
inference (`Sequencer.calculateNoteDuration`)
-/

/-- `clamp(value, min, max) = Math.max(min, Math.min(max, value))` from
`src/utils/clamp.ts`. -/
def clamp (value lo hi : ℚ) : ℚ := max lo (min hi value)

/-- `clampBpm(bpm) = clamp(bpm, 30, 300)`. -/
def clampBpm (bpm : ℚ) : ℚ := clamp bpm 30 300

/-- A `Clock` instance (BPM already clamped, steps-per-beat already
floored by the constructor). -/
structure Clock where
  bpm : ℚ
  stepsPerBeat : ℚ
deriving DecidableEq, Repr

/-- `new Clock(bpm, stepsPerBeat)`. -/
def Clock.create (bpm stepsPerBeat : ℚ) : Clock :=
  { bpm := clampBpm bpm, stepsPerBeat := max 1 ((⌊stepsPerBeat⌋ : ℤ) : ℚ) }

/-- `Clock.secondsPerBeat = 60 / bpm`. -/
def Clock.secondsPerBeat (c : Clock) : ℚ := 60 / c.bpm

/-- `Clock.secondsPerStep = secondsPerBeat / stepsPerBeat`. -/
def Clock.secondsPerStep (c : Clock) : ℚ := c.secondsPerBeat / c.stepsPerBeat

/-- `Clock.stepsToSeconds(steps) = steps * secondsPerStep`. -/
def Clock.stepsToSeconds (c : Clock) (steps : ℚ) : ℚ := steps * c.secondsPerStep

/-- A `NoteEvent` of a pattern lane (`src/types/Pattern.ts`); `duration`
is an optional length in steps. -/
structure NoteEvent where
  step : ℕ
  note : Option String
  instrumentId : String
  duration : Option ℚ
deriving DecidableEq, Repr

/-- `Sequencer.calculateNoteDuration(channel, event, step)`: the
explicit duration if given; otherwise play until the first event of the
lane with a strictly larger step; otherwise until pattern end — in all
cases converted to seconds through the clock. -/
def Sequencer.calculateNoteDuration (clock : Clock) (patternSteps : ℕ)
    (laneEvents : List NoteEvent) (event : NoteEvent) (step : ℕ) : ℚ :=
  match event.duration with
  | some d => clock.stepsToSeconds d
  | Option.none =>
    match laneEvents.find? (fun e => decide (step < e.step)) with
    | some nextEvent => clock.stepsToSeconds ((nextEvent.step : ℚ) - (step : ℚ))
    | Option.none => clock.stepsToSeconds ((patternSteps : ℚ) - (step : ℚ))

/-!
## Pulse harmonic table (`src/core/PulseChannel.ts`) and wavetable DFT
(`src/core/WaveChannel.ts`)
-/

/-- `PULSE_HARMONICS` (64). -/
def PULSE_HARMONICS : ℕ := 64

/-- `createPulseWave`: imaginary Fourier coefficient
`imag[n] = (2 / (n·π)) · sin(n·π·duty)` for `1 ≤ n < 64`; index 0 is
set to zero. -/
noncomputable def createPulseWaveImag (duty : ℝ) (n : ℕ) : ℝ :=
  if n = 0 then 0 else 2 / (n * Real.pi) * Real.sin (n * Real.pi * duty)

/-- `createPulseWave`: the real coefficient array stays all zero. -/
noncomputable def createPulseWaveReal (n : ℕ) : ℝ := 0

/-- `WAVETABLE_SIZE` (32). -/
def WAVETABLE_SIZE : ℕ := 32

/-- `normalizeWavetableSample(sample) = (sample / 7.5) - 1` from
`src/utils` (7.5 written as 15/2). -/
def normalizeWavetableSample (sample : ℚ) : ℚ := sample / (15 / 2) - 1

/-- `createWavetableWave`: real DFT coefficient
`real[k] = (Σₙ x[n]·cos(2πkn/32)) / 32` over the normalized table. -/
noncomputable def createWavetableWaveReal (wavetable : List ℚ) (k : ℕ) : ℝ :=
  let normalized := wavetable.map normalizeWavetableSample
  (∑ n ∈ Finset.range WAVETABLE_SIZE,
      ((normalized.getD n 0 : ℚ) : ℝ) *
        Real.cos (2 * Real.pi * k * n / WAVETABLE_SIZE)) / WAVETABLE_SIZE

/-- `createWavetableWave`: imaginary DFT coefficient
`imag[k] = (Σₙ -x[n]·sin(2πkn/32)) / 32` (the source subtracts each
term from 0). -/
noncomputable def createWavetableWaveImag (wavetable : List ℚ) (k : ℕ) : ℝ :=
  let normalized := wavetable.map normalizeWavetableSample
  (∑ n ∈ Finset.range WAVETABLE_SIZE,
      -(((normalized.getD n 0 : ℚ) : ℝ) *
        Real.sin (2 * Real.pi * k * n / WAVETABLE_SIZE))) / WAVETABLE_SIZE

/-- A note event at step 0 with no explicit duration. -/
def sampleLaneEvent0 : NoteEvent :=
  { step := 0, note := some "C4", instrumentId := "lead", duration := Option.none }

/-- A lane with events at steps 0, 4 and 8, none with an explicit
duration. -/
def sampleLane : List NoteEvent :=
  [sampleLaneEvent0,
   { step := 4, note := some "E4", instrumentId := "lead", duration := Option.none },
   { step := 8, note := some "G4", instrumentId := "lead", duration := Option.none }]

/-- A clock at 120 BPM with 4 steps per beat. -/
def sampleClock : Clock := Clock.create 120 4

/-- An envelope configuration used for concrete checks
(`{attack: 0.1, decay: 0.1, sustain: 0.5, release: 0.2}`). -/
def sampleEnvelopeConfig : EnvelopeConfig :=
  { attack := 1 / 10, decay := 1 / 10, sustain := 1 / 2, release := 1 / 5 }

/-- A configured voice whose deferred release completion is pending. -/
def sampleReleasingVoice : VoiceState :=
  { envelope := some (Envelope.ofConfig sampleEnvelopeConfig)
    isActive := true
    startTime := 0
    currentAmplitude := 1 / 2
    releaseTimeout := some 2 }

/-- A two-voice pool at capacity with both voices active. -/
def sampleFullPool : VoicePool :=
  { voices :=
      [{ envelope := Option.none, isActive := true, startTime := 1,
         currentAmplitude := 3 / 4, releaseTimeout := Option.none },
       { envelope := Option.none, isActive := true, startTime := 0,
         currentAmplitude := 1 / 4, releaseTimeout := Option.none }]
    maxVoices := 2
    stealingMode := StealingMode.oldest }

/-- Appending a value-event aimed exactly at `t` makes it the scheduled
value at `t`, whatever was scheduled before. -/
theorem scheduledValueAt_append_last (evs : List AutoEvent) (v t : ℚ)
    (e : AutoEvent) (he : e.valueTimeOf = some (v, t)) :
    scheduledValueAt (evs ++ [e]) t = some v := by
  simp [scheduledValueAt, List.foldl_append, he]

/-- C3: `triggerAttack` returns `startTime + attack + decay` (hence a
time `≥ startTime + attack`), `triggerRelease` returns
`startTime + release` (hence `≥ startTime`), and the amplitude value
scheduled at the returned decay-end time is exactly `sustain·velocity`. -/
theorem envelope_monotonic_timing (c : EnvelopeConfig) (t v pv : ℚ)
    (ha : 0 ≤ c.attack) (hd : 0 ≤ c.decay) (hr : 0 ≤ c.release) :
    ((Envelope.ofConfig c).triggerAttack t v).2 = t + c.attack + c.decay ∧
    t + c.attack ≤ ((Envelope.ofConfig c).triggerAttack t v).2 ∧
    ((Envelope.ofConfig c).triggerRelease t pv).2 = t + c.release ∧
    t ≤ ((Envelope.ofConfig c).triggerRelease t pv).2 ∧
    scheduledValueAt ((Envelope.ofConfig c).triggerAttack t v).1
        (((Envelope.ofConfig c).triggerAttack t v).2)
      = some (c.sustain * v) := by
  set env := Envelope.ofConfig c with henv
  have hattack : env.attack = c.attack := rfl
  have hdecay : env.decay = c.decay := rfl
  have hsustain : env.sustain = c.sustain := rfl
  have hrelease : env.release = c.release := rfl
  refine ⟨?_, ?_, ?_, ?_, ?_⟩
  · simp [Envelope.triggerAttack, hattack, hdecay, add_assoc]
  · simp only [Envelope.triggerAttack, hattack, hdecay]
    linarith
  · simp [Envelope.triggerRelease, hrelease]
  · simp only [Envelope.triggerRelease, hrelease]
    linarith
  · show scheduledValueAt ((Envelope.triggerAttack env t v).1)
        ((Envelope.triggerAttack env t v).2) = some (c.sustain * v)
    rw [Envelope.triggerAttack]
    by_cases hdc : env.decayCurve = Curve.exponential ∧ env.decay > 1 / 1000 ∧
        env.sustain * v > MIN_EXPONENTIAL_VALUE
    · rw [if_pos hdc]
      rw [scheduledValueAt_append_last _ (max (env.sustain * v) MIN_EXPONENTIAL_VALUE)
          (t + env.attack + env.decay)
          (AutoEvent.expRamp (max (env.sustain * v) MIN_EXPONENTIAL_VALUE)
            (t + env.attack + env.decay)) rfl]
      rw [max_eq_left (le_of_lt hdc.2.2), hsustain]
    · rw [if_neg hdc]
      rw [scheduledValueAt_append_last _ (env.sustain * v)
          (t + env.attack + env.decay)
          (AutoEvent.linearRamp (env.sustain * v) (t + env.attack + env.decay)) rfl]
      rw [hsustain]

/-- `stealVoice` never changes how many voices the pool holds. -/
theorem VoicePool.stealVoice_length (p : VoicePool) :
    p.stealVoice.2.voices.length = p.voices.length := by
  rw [VoicePool.stealVoice]
  by_cases hm : p.stealingMode = StealingMode.none
  · rw [if_pos hm]
  · rw [if_neg hm]
    rcases hfe : p.voices.enum.filter (fun iv => iv.2.isActive) with _ | ⟨a, rest⟩
    · rw [hfe]
    · rw [hfe]
      simp [List.length_set]

/-- `stealVoice` never changes the capacity or the stealing mode. -/
theorem VoicePool.stealVoice_config (p : VoicePool) :
    p.stealVoice.2.maxVoices = p.maxVoices ∧
    p.stealVoice.2.stealingMode = p.stealingMode := by
  rw [VoicePool.stealVoice]
  by_cases hm : p.stealingMode = StealingMode.none
  · rw [if_pos hm]
    exact ⟨rfl, rfl⟩
  · rw [if_neg hm]
    rcases hfe : p.voices.enum.filter (fun iv => iv.2.isActive) with _ | ⟨a, rest⟩
    · rw [hfe]
      exact ⟨rfl, rfl⟩
    · rw [hfe]
      exact ⟨rfl, rfl⟩

/-- Case analysis of the voice count across one `acquire()`:
either unchanged, or grown by one from strictly below capacity. -/
theorem VoicePool.acquire_length_cases (p : VoicePool) :
    p.acquire.2.voices.length = p.voices.length ∨
    (p.voices.length < p.maxVoices ∧
      p.acquire.2.voices.length = p.voices.length + 1) := by
  rw [VoicePool.acquire]
  rcases hf : p.voices.findIdx? (fun v => !v.isActive) with _ | i
  · rw [hf]
    by_cases hlt : p.voices.length < p.maxVoices
    · right
      rw [if_pos hlt]
      exact ⟨hlt, by simp⟩
    · left
      rw [if_neg hlt]
      exact p.stealVoice_length
  · left
    rw [hf]

/-- `acquire` never changes the capacity or the stealing mode. -/
theorem VoicePool.acquire_config (p : VoicePool) :
    p.acquire.2.maxVoices = p.maxVoices ∧
    p.acquire.2.stealingMode = p.stealingMode := by
  rw [VoicePool.acquire]
  rcases hf : p.voices.findIdx? (fun v => !v.isActive) with _ | i
  · rw [hf]
    by_cases hlt : p.voices.length < p.maxVoices
    · rw [if_pos hlt]
      exact ⟨rfl, rfl⟩
    · rw [if_neg hlt]
      exact p.stealVoice_config
  · rw [hf]
    exact ⟨rfl, rfl⟩

/-- The bound invariant is preserved by one `acquire()`. -/
theorem VoicePool.acquire_preserves_bound (p : VoicePool)
    (h : p.voices.length ≤ p.maxVoices) :
    p.acquire.2.voices.length ≤ p.acquire.2.maxVoices := by
  rw [p.acquire_config.1]
  rcases p.acquire_length_cases with hc | ⟨hlt, hc⟩
  · omega
  · omega

/-- JS `reduce` with a strict-less keep-left comparator returns an
element of the array. -/
theorem foldl_minBy_mem {α : Type} (f : α → ℚ) (a : α) (l : List α) :
    l.foldl (fun x y => if f x < f y then x else y) a ∈ a :: l := by
  induction l generalizing a with
  | nil => simp
  | cons b t ih =>
    rw [List.foldl_cons]
    have h := ih (if f a < f b then a else b)
    rcases List.mem_cons.mp h with h1 | h1
    · rw [h1]
      by_cases hab : f a < f b
      · rw [if_pos hab]
        exact List.mem_cons_self _ _
      · rw [if_neg hab]
        exact List.mem_cons_of_mem _ (List.mem_cons_self _ _)
    · exact List.mem_cons_of_mem _ (List.mem_cons_of_mem _ h1)

/-- JS `reduce` with a strict-less keep-left comparator minimises the
key over the array. -/
theorem foldl_minBy_le {α : Type} (f : α → ℚ) (a : α) (l : List α) :
    ∀ z ∈ a :: l, f (l.foldl (fun x y => if f x < f y then x else y) a) ≤ f z := by
  induction l generalizing a with
  | nil =>
    intro z hz
    rcases List.mem_cons.mp hz with rfl | h
    · simp
    · simp at h
  | cons b t ih =>
    intro z hz
    rw [List.foldl_cons]
    have key : f (if f a < f b then a else b) ≤ f a ∧
        f (if f a < f b then a else b) ≤ f b := by
      by_cases hab : f a < f b
      · rw [if_pos hab]
        exact ⟨le_refl _, le_of_lt hab⟩
      · rw [if_neg hab]
        exact ⟨le_of_not_lt hab, le_refl _⟩
    rcases List.mem_cons.mp hz with rfl | hz1
    · exact le_trans (ih _ _ (List.mem_cons_self _ _)) key.1
    · rcases List.mem_cons.mp hz1 with rfl | hz2
      · exact le_trans (ih _ _ (List.mem_cons_self _ _)) key.2
      · exact ih _ z (List.mem_cons_of_mem _ hz2)

/-- Any element of the filtered enumeration used by `stealVoice` names
a valid index of the pool. -/
theorem VoicePool.steal_victim_lt (p : VoicePool) {a : ℕ × VoiceState}
    {rest : List (ℕ × VoiceState)}
    (hfe : p.voices.enum.filter (fun iv => iv.2.isActive) = a :: rest)
    (x : ℕ × VoiceState) (hx : x ∈ a :: rest) : x.1 < p.voices.length := by
  rw [← hfe] at hx
  have hx2 : x ∈ p.voices.enum := List.mem_of_mem_filter hx
  obtain ⟨i, v⟩ := x
  have hget : p.voices[i]? = some v := List.mk_mem_enum_iff_getElem?.mp hx2
  exact (List.getElem?_eq_some.mp hget).1

/-- The voice count and capacity stay within bounds across any number of
`acquire()` calls. -/
theorem VoicePool.acquireN_bound (p : VoicePool)
    (h : p.voices.length ≤ p.maxVoices) (n : ℕ) :
    (p.acquireN n).voices.length ≤ (p.acquireN n).maxVoices ∧
    (p.acquireN n).maxVoices = p.maxVoices := by
  induction n with
  | zero => exact ⟨h, rfl⟩
  | succ n ih =>
    refine ⟨VoicePool.acquire_preserves_bound _ ih.1, ?_⟩
    show (p.acquireN n).acquire.2.maxVoices = p.maxVoices
    rw [(p.acquireN n).acquire_config.1, ih.2]

/-- C1: for every sequence of `acquire()` calls on a pool constructed
with capacity `maxVoices`, `getTotalCount()` never exceeds `maxVoices`;
a single `acquire()` constructs a new voice only when the count is
strictly below `maxVoices` (otherwise the count is unchanged), and
whenever it returns a voice at all, that voice is one held by the
updated pool. -/
theorem voicePool_holds_at_most_maxVoices :
    (∀ (maxVoices : ℕ) (mode : StealingMode) (n : ℕ),
      ((VoicePool.create maxVoices mode).acquireN n).getTotalCount ≤ maxVoices) ∧
    (∀ p : VoicePool,
      p.acquire.2.voices.length = p.voices.length ∨
      (p.voices.length < p.maxVoices ∧
        p.acquire.2.voices.length = p.voices.length + 1)) ∧
    (∀ p : VoicePool,
      (p.acquire.1.all fun i => decide (i < p.acquire.2.voices.length)) = true) := by
  refine ⟨?_, VoicePool.acquire_length_cases, ?_⟩
  · intro maxVoices mode n
    have h := VoicePool.acquireN_bound (VoicePool.create maxVoices mode)
      (by simp [VoicePool.create]) n
    show (VoicePool.acquireN _ n).voices.length ≤ maxVoices
    calc (VoicePool.acquireN _ n).voices.length
        ≤ (VoicePool.acquireN _ n).maxVoices := h.1
      _ = maxVoices := h.2
  · intro p
    rw [VoicePool.acquire]
    rcases hf : p.voices.findIdx? (fun v => !v.isActive) with _ | i
    · rw [hf]
      by_cases hlt : p.voices.length < p.maxVoices
      · rw [if_pos hlt]
        simp
      · rw [if_neg hlt]
        rw [VoicePool.stealVoice]
        by_cases hm : p.stealingMode = StealingMode.none
        · rw [if_pos hm]
          rfl
        · rw [if_neg hm]
          rcases hfe : p.voices.enum.filter (fun iv => iv.2.isActive) with _ | ⟨a, rest⟩
          · rw [hfe]
            by_cases he : p.voices.isEmpty
            · rw [if_pos he]
              rfl
            · rw [if_neg he]
              have : 0 < p.voices.length := by
                cases hv : p.voices with
                | nil => rw [hv] at he; simp at he
                | cons x xs => simp [hv]
              simpa using this
          · rw [hfe]
            simp only [Option.all_some, decide_eq_true_eq]
            rw [List.length_set]
            by_cases hmo : p.stealingMode = StealingMode.oldest
            · rw [if_pos hmo]
              exact p.steal_victim_lt hfe _
                (foldl_minBy_mem (fun x => x.2.startTime) a rest)
            · rw [if_neg hmo]
              exact p.steal_victim_lt hfe _
                (foldl_minBy_mem (fun x => x.2.currentAmplitude) a rest)
    · rw [hf]
      simp only [Option.all_some, decide_eq_true_eq]
      exact (List.findIdx?_eq_some_iff_getElem.mp hf).1

/-- The `reduce`-minimisation inside `stealVoice`, specified against the
underlying voice list: when the filtered enumeration is the whole
enumeration, the fold returns a valid index paired with the voice stored
there, minimising the key `f` over all voices. -/
theorem VoicePool.steal_min_spec (p : VoicePool) (f : VoiceState → ℚ)
    {a : ℕ × VoiceState} {rest : List (ℕ × VoiceState)}
    (henum : p.voices.enum = a :: rest) :
    ∃ (i : ℕ) (hi : i < p.voices.length),
      rest.foldl (fun x y => if f x.2 < f y.2 then x else y) a =
        (i, p.voices.get ⟨i, hi⟩) ∧
      ∀ j (hj : j < p.voices.length),
        f (p.voices.get ⟨i, hi⟩) ≤ f (p.voices.get ⟨j, hj⟩) := by
  have hmem := foldl_minBy_mem (fun x : ℕ × VoiceState => f x.2) a rest
  rw [← henum] at hmem
  rcases hvic : rest.foldl (fun x y => if f x.2 < f y.2 then x else y) a with ⟨i, v⟩
  rw [hvic] at hmem
  have hget : p.voices[i]? = some v := List.mk_mem_enum_iff_getElem?.mp hmem
  obtain ⟨hi, hgel⟩ := List.getElem?_eq_some.mp hget
  have hgv : p.voices.get ⟨i, hi⟩ = v := by
    rw [List.get_eq_getElem, hgel]
  refine ⟨i, hi, ?_, ?_⟩
  · rw [hgv]
    exact hvic
  · intro j hj
    have hjmem : (j, p.voices.get ⟨j, hj⟩) ∈ p.voices.enum := by
      apply List.mk_mem_enum_iff_getElem?.mpr
      rw [List.get_eq_getElem]
      exact List.getElem?_eq_getElem hj
    rw [henum] at hjmem
    have hle := foldl_minBy_le (fun x : ℕ × VoiceState => f x.2) a rest _ hjmem
    rw [hvic] at hle
    rw [hgv]
    exact hle

/-- C2: with the pool at capacity and every voice active, `acquire()`
with mode `oldest` returns (after force-stopping it) the active voice of
minimal start time; with `quietest` the one of minimal current
amplitude; with `none` it returns the failure signal `null` and leaves
the pool untouched. -/
theorem voicePool_stealing_correctness (p : VoicePool)
    (hactive : ∀ v ∈ p.voices, v.isActive = true)
    (hcap : p.maxVoices ≤ p.voices.length)
    (hne : 0 < p.voices.length) :
    (p.stealingMode = StealingMode.none → p.acquire = (Option.none, p)) ∧
    (p.stealingMode = StealingMode.oldest →
      ∃ (i : ℕ) (hi : i < p.voices.length),
        p.acquire.1 = some i ∧
        (∀ j (hj : j < p.voices.length),
          (p.voices.get ⟨i, hi⟩).startTime ≤ (p.voices.get ⟨j, hj⟩).startTime) ∧
        p.acquire.2.voices = p.voices.set i ((p.voices.get ⟨i, hi⟩).stop)) ∧
    (p.stealingMode = StealingMode.quietest →
      ∃ (i : ℕ) (hi : i < p.voices.length),
        p.acquire.1 = some i ∧
        (∀ j (hj : j < p.voices.length),
          (p.voices.get ⟨i, hi⟩).currentAmplitude ≤
            (p.voices.get ⟨j, hj⟩).currentAmplitude) ∧
        p.acquire.2.voices = p.voices.set i ((p.voices.get ⟨i, hi⟩).stop)) := by
  have hsteal : p.acquire = p.stealVoice := by
    rw [VoicePool.acquire]
    have hf : p.voices.findIdx? (fun v => !v.isActive) = Option.none := by
      rw [List.findIdx?_eq_none_iff]
      intro x hx
      simp [hactive x hx]
    rw [hf, if_neg (by omega)]
  have hfilter : p.voices.enum.filter (fun iv => iv.2.isActive) = p.voices.enum := by
    rw [List.filter_eq_self]
    intro x hx
    obtain ⟨i, v⟩ := x
    have hget := List.mk_mem_enum_iff_getElem?.mp hx
    obtain ⟨hi, hgel⟩ := List.getElem?_eq_some.mp hget
    have hv : v ∈ p.voices := by
      rw [← hgel]
      exact List.getElem_mem hi
    simpa using hactive v hv
  rcases henum : p.voices.enum with _ | ⟨a, rest⟩
  · exfalso
    have h2 := congrArg List.length henum
    rw [List.enum_length, List.length_nil] at h2
    omega
  · refine ⟨?_, ?_, ?_⟩
    · intro hmode
      rw [hsteal, VoicePool.stealVoice, if_pos hmode]
    · intro hmode
      obtain ⟨i, hi, hvic, hmin⟩ :=
        p.steal_min_spec VoiceState.startTime henum
      have hacq : p.acquire =
          (some i, { p with voices := p.voices.set i ((p.voices.get ⟨i, hi⟩).stop) }) := by
        rw [hsteal, VoicePool.stealVoice,
          if_neg (by rw [hmode]; exact fun h => nomatch h), hfilter, henum]
        dsimp only
        rw [if_pos hmode, hvic]
      exact ⟨i, hi, by rw [hacq], hmin, by rw [hacq]⟩
    · intro hmode
      obtain ⟨i, hi, hvic, hmin⟩ :=
        p.steal_min_spec VoiceState.currentAmplitude henum
      have hacq : p.acquire =
          (some i, { p with voices := p.voices.set i ((p.voices.get ⟨i, hi⟩).stop) }) := by
        rw [hsteal, VoicePool.stealVoice,
          if_neg (by rw [hmode]; exact fun h => nomatch h), hfilter, henum]
        dsimp only
        rw [if_neg (by rw [hmode]; exact fun h => nomatch h), hvic]
      exact ⟨i, hi, by rw [hacq], hmin, by rw [hacq]⟩

/-- C2 at concrete data: a full pool of two active voices in `oldest`
mode; the second voice (start time 0) is the steal victim. -/
theorem voicePool_stealing_correctness_witness :
    (∀ v ∈ sampleFullPool.voices, v.isActive = true) ∧
    sampleFullPool.maxVoices ≤ sampleFullPool.voices.length ∧
    0 < sampleFullPool.voices.length ∧
    ((sampleFullPool.stealingMode = StealingMode.none →
        sampleFullPool.acquire = (Option.none, sampleFullPool)) ∧
      (sampleFullPool.stealingMode = StealingMode.oldest →
        ∃ (i : ℕ) (hi : i < sampleFullPool.voices.length),
          sampleFullPool.acquire.1 = some i ∧
          (∀ j (hj : j < sampleFullPool.voices.length),
            (sampleFullPool.voices.get ⟨i, hi⟩).startTime ≤
              (sampleFullPool.voices.get ⟨j, hj⟩).startTime) ∧
          sampleFullPool.acquire.2.voices =
            sampleFullPool.voices.set i
              ((sampleFullPool.voices.get ⟨i, hi⟩).stop)) ∧
      (sampleFullPool.stealingMode = StealingMode.quietest →
        ∃ (i : ℕ) (hi : i < sampleFullPool.voices.length),
          sampleFullPool.acquire.1 = some i ∧
          (∀ j (hj : j < sampleFullPool.voices.length),
            (sampleFullPool.voices.get ⟨i, hi⟩).currentAmplitude ≤
              (sampleFullPool.voices.get ⟨j, hj⟩).currentAmplitude) ∧
          sampleFullPool.acquire.2.voices =
            sampleFullPool.voices.set i
              ((sampleFullPool.voices.get ⟨i, hi⟩).stop))) :=
  ⟨by decide, by decide, by decide,
   voicePool_stealing_correctness sampleFullPool (by decide) (by decide) (by decide)⟩

/-- Unfolding `noteOn` on an unconfigured voice. -/
theorem VoiceState.noteOn_none (s : VoiceState) (f v t : ℚ)
    (h : s.envelope = Option.none) :
    s.noteOn f v t = Except.error "Voice not configured. Call configure() first." := by
  unfold VoiceState.noteOn
  rw [h]

/-- Unfolding `noteOn` on a configured voice. -/
theorem VoiceState.noteOn_some (s : VoiceState) (f v t : ℚ) (env : Envelope)
    (h : s.envelope = some env) :
    s.noteOn f v t = Except.ok { s with
      releaseTimeout := Option.none
      isActive := true
      startTime := t } := by
  unfold VoiceState.noteOn
  rw [h]

/-- From a state with no pending release timer, a run that contains no
`noteOff` never performs a `fireRelease` step: only `noteOff` can re-arm
the timer, and `fireRelease` is enabled only while it is armed. -/
theorem VoiceTrace.no_fire_of_no_noteOff (ls : List VoiceLabel) :
    ∀ s s' : VoiceState, s.releaseTimeout = Option.none →
      VoiceTrace s ls s' → (∀ l ∈ ls, l.isNoteOff = false) →
      VoiceLabel.fireRelease ∉ ls := by
  induction ls with
  | nil =>
    intro s s' h ht hno
    simp
  | cons l ls ih =>
    intro s s' h ht hno
    rcases ht with ⟨m, hstep, htrace⟩
    intro hmem
    rcases List.mem_cons.mp hmem with heq | hmem'
    · subst heq
      cases hstep with
      | fireRelease e he =>
        rw [h] at he
        exact Option.noConfusion he
    · have hm : m.releaseTimeout = Option.none := by
        cases hstep with
        | noteOn f v t s1 hok =>
          rcases henv : s.envelope with _ | env
          · rw [VoiceState.noteOn_none s f v t henv] at hok
            exact Except.noConfusion hok
          · rw [VoiceState.noteOn_some s f v t env henv] at hok
            have hs1 := Except.ok.inj hok
            rw [← hs1]
        | noteOff t =>
          exact absurd (hno _ (List.mem_cons_self _ _))
            (by simp [VoiceLabel.isNoteOff])
        | stop => rfl
        | fireRelease e he => rfl
      exact ih m s' hm htrace
        (fun x hx => hno x (List.mem_cons_of_mem _ hx)) hmem'

/-- C7: force-stop is authoritative over the deferred release
completion: `stop()` on a voice with a pending release timer cancels the
timer, immediately marks the voice inactive and zeroes its amplitude,
and in any following run without a new `noteOff` the superseded
completion never fires (so nothing overwrites what `stop()` wrote). -/
theorem voice_stop_supersedes_release (s : VoiceState) (e : ℚ)
    (hp : s.releaseTimeout = some e) :
    s.stop.releaseTimeout = Option.none ∧
    s.stop.isActive = false ∧
    s.stop.currentAmplitude = 0 ∧
    ∀ (ls : List VoiceLabel) (s' : VoiceState),
      VoiceTrace s.stop ls s' → (∀ l ∈ ls, l.isNoteOff = false) →
      VoiceLabel.fireRelease ∉ ls := by
  refine ⟨rfl, rfl, rfl, ?_⟩
  intro ls s' ht hno
  exact VoiceTrace.no_fire_of_no_noteOff ls s.stop s' rfl ht hno

/-- C7 at concrete data: stopping a voice mid-release. -/
theorem voice_stop_supersedes_release_witness :
    sampleReleasingVoice.releaseTimeout = some 2 ∧
    (sampleReleasingVoice.stop.releaseTimeout = Option.none ∧
      sampleReleasingVoice.stop.isActive = false ∧
      sampleReleasingVoice.stop.currentAmplitude = 0 ∧
      ∀ (ls : List VoiceLabel) (s' : VoiceState),
        VoiceTrace sampleReleasingVoice.stop ls s' →
        (∀ l ∈ ls, l.isNoteOff = false) →
        VoiceLabel.fireRelease ∉ ls) :=
  ⟨rfl, voice_stop_supersedes_release sampleReleasingVoice 2 rfl⟩

/-- C10: on a configured voice, `noteOn` succeeds, clears any pending
deferred release completion before marking the voice active, and no
stale completion from a previous note can fire while the new note runs
(until a new `noteOff` re-arms the timer). -/
theorem voice_noteOn_cancels_stale_release (s : VoiceState) (f v t : ℚ)
    (hc : s.envelope.isSome = true) :
    ∃ s', s.noteOn f v t = Except.ok s' ∧
      s'.releaseTimeout = Option.none ∧
      s'.isActive = true ∧
      ∀ (ls : List VoiceLabel) (s'' : VoiceState),
        VoiceTrace s' ls s'' → (∀ l ∈ ls, l.isNoteOff = false) →
        VoiceLabel.fireRelease ∉ ls := by
  rcases henv : s.envelope with _ | env
  · rw [henv] at hc
    simp at hc
  · refine ⟨{ s with
        releaseTimeout := Option.none
        isActive := true
        startTime := t }, ?_, rfl, rfl, ?_⟩
    · exact VoiceState.noteOn_some s f v t env henv
    · intro ls s'' ht hno
      exact VoiceTrace.no_fire_of_no_noteOff ls _ s'' rfl ht hno

/-- C10 at concrete data: retriggering a voice that is mid-release. -/
theorem voice_noteOn_cancels_stale_release_witness :
    sampleReleasingVoice.envelope.isSome = true ∧
    ∃ s', sampleReleasingVoice.noteOn 440 1 3 = Except.ok s' ∧
      s'.releaseTimeout = Option.none ∧
      s'.isActive = true ∧
      ∀ (ls : List VoiceLabel) (s'' : VoiceState),
        VoiceTrace s' ls s'' → (∀ l ∈ ls, l.isNoteOff = false) →
        VoiceLabel.fireRelease ∉ ls :=
  ⟨rfl, voice_noteOn_cancels_stale_release sampleReleasingVoice 440 1 3 rfl⟩

/-- C3 at concrete data: the envelope
`{attack: 0.1, decay: 0.1, sustain: 0.5, release: 0.2}` triggered at
`t = 0` with velocity 1. -/
theorem envelope_monotonic_timing_witness :
    (0 : ℚ) ≤ sampleEnvelopeConfig.attack ∧
    (0 : ℚ) ≤ sampleEnvelopeConfig.decay ∧
    (0 : ℚ) ≤ sampleEnvelopeConfig.release ∧
    (((Envelope.ofConfig sampleEnvelopeConfig).triggerAttack 0 1).2 =
        0 + sampleEnvelopeConfig.attack + sampleEnvelopeConfig.decay ∧
      0 + sampleEnvelopeConfig.attack ≤
        ((Envelope.ofConfig sampleEnvelopeConfig).triggerAttack 0 1).2 ∧
      ((Envelope.ofConfig sampleEnvelopeConfig).triggerRelease 0 1).2 =
        0 + sampleEnvelopeConfig.release ∧
      (0 : ℚ) ≤ ((Envelope.ofConfig sampleEnvelopeConfig).triggerRelease 0 1).2 ∧
      scheduledValueAt ((Envelope.ofConfig sampleEnvelopeConfig).triggerAttack 0 1).1
          (((Envelope.ofConfig sampleEnvelopeConfig).triggerAttack 0 1).2)
        = some (sampleEnvelopeConfig.sustain * 1)) :=
  ⟨by norm_num [sampleEnvelopeConfig], by norm_num [sampleEnvelopeConfig],
   by norm_num [sampleEnvelopeConfig],
   envelope_monotonic_timing sampleEnvelopeConfig 0 1 1
     (by norm_num [sampleEnvelopeConfig]) (by norm_num [sampleEnvelopeConfig])
     (by norm_num [sampleEnvelopeConfig])⟩

/-- `lfsrProbe` at zero steps. -/
theorem lfsrProbe_zero (bits x : ℕ) : lfsrProbe bits 0 x = some x := rfl

/-- `lfsrProbe` unfolds one step at a time. -/
theorem lfsrProbe_succ (bits k x : ℕ) :
    lfsrProbe bits (k + 1) x =
      if lfsrStep bits x = lfsrSeed bits then Option.none
      else lfsrProbe bits k (lfsrStep bits x) := rfl

/-- Probes compose: walking `a + b` steps is walking `b`, then `a`. -/
theorem lfsrProbe_add (bits a b x : ℕ) :
    lfsrProbe bits (a + b) x = (lfsrProbe bits b x).bind (lfsrProbe bits a) := by
  induction b generalizing x with
  | zero => simp [lfsrProbe_zero]
  | succ b ih =>
    rw [← Nat.add_assoc, lfsrProbe_succ, lfsrProbe_succ]
    by_cases h : lfsrStep bits x = lfsrSeed bits
    · simp [h]
    · simp only [if_neg h, ih]

/-- A successful probe computes the iterate and certifies that no
strictly earlier step already returned to the seed. -/
theorem lfsrProbe_spec (bits : ℕ) :
    ∀ k x y, lfsrProbe bits k x = some y →
      (lfsrStep bits)^[k] x = y ∧
      ∀ j, 1 ≤ j → j ≤ k → (lfsrStep bits)^[j] x ≠ lfsrSeed bits := by
  intro k
  induction k with
  | zero =>
    intro x y h
    rw [lfsrProbe_zero] at h
    refine ⟨by simpa using (Option.some_inj.mp h), ?_⟩
    intro j h1 h2
    omega
  | succ k ih =>
    intro x y h
    rw [lfsrProbe_succ] at h
    by_cases hs : lfsrStep bits x = lfsrSeed bits
    · simp [hs] at h
    · rw [if_neg hs] at h
      obtain ⟨hit, hne⟩ := ih (lfsrStep bits x) y h
      constructor
      · rw [Function.iterate_succ_apply]
        exact hit
      · intro j h1 h2
        match j, h1 with
        | 1, _ => simpa using hs
        | j + 2, _ =>
          rw [Function.iterate_succ_apply]
          exact hne (j + 1) (by omega) (by omega)

set_option maxRecDepth 40000

/-- Long-mode walk, first quarter-chunks: concrete register states every
4096 steps, checked by evaluation. -/
theorem lfsrLong_chunks :
    lfsrProbe 15 4096 (lfsrSeed 15) = some 10112 ∧
    lfsrProbe 15 4096 10112 = some 14463 ∧
    lfsrProbe 15 4096 14463 = some 12703 ∧
    lfsrProbe 15 4096 12703 = some 16256 ∧
    lfsrProbe 15 4096 16256 = some 13287 ∧
    lfsrProbe 15 4096 13287 = some 15367 ∧
    lfsrProbe 15 4096 15367 = some 12542 ∧
    lfsrProbe 15 4094 12542 = some 32766 :=
  ⟨by decide, by decide, by decide, by decide,
   by decide, by decide, by decide, by decide⟩

/-- The assembled long-mode walk: 32766 steps from the seed reach
register 32766 without revisiting the seed. -/
theorem lfsrLong_probe : lfsrProbe 15 32766 (lfsrSeed 15) = some 32766 := by
  obtain ⟨c1, c2, c3, c4, c5, c6, c7, c8⟩ := lfsrLong_chunks
  have h1 : (32766 : ℕ) = 28670 + 4096 := by norm_num
  rw [h1, lfsrProbe_add, c1, Option.some_bind]
  have h2 : (28670 : ℕ) = 24574 + 4096 := by norm_num
  rw [h2, lfsrProbe_add, c2, Option.some_bind]
  have h3 : (24574 : ℕ) = 20478 + 4096 := by norm_num
  rw [h3, lfsrProbe_add, c3, Option.some_bind]
  have h4 : (20478 : ℕ) = 16382 + 4096 := by norm_num
  rw [h4, lfsrProbe_add, c4, Option.some_bind]
  have h5 : (16382 : ℕ) = 12286 + 4096 := by norm_num
  rw [h5, lfsrProbe_add, c5, Option.some_bind]
  have h6 : (12286 : ℕ) = 8190 + 4096 := by norm_num
  rw [h6, lfsrProbe_add, c6, Option.some_bind]
  have h7 : (8190 : ℕ) = 4094 + 4096 := by norm_num
  rw [h7, lfsrProbe_add, c7, Option.some_bind]
  exact c8

/-- Short-mode walk: 126 steps from the seed reach register 126 without
revisiting the seed. -/
theorem lfsrShort_probe : lfsrProbe 7 126 (lfsrSeed 7) = some 126 := by decide

/-- C4: the long-mode (15-bit) register returns to the all-ones seed
after exactly 32767 steps and never earlier within the buffer, the
short-mode (7-bit) register after exactly 127 steps, and every emitted
noise sample is exactly +1 or -1. -/
theorem lfsr_periodicity :
    ((lfsrStep 15)^[LFSR_LONG_LENGTH] (lfsrSeed 15) = lfsrSeed 15) ∧
    (∀ k, 0 < k → k < LFSR_LONG_LENGTH →
      (lfsrStep 15)^[k] (lfsrSeed 15) ≠ lfsrSeed 15) ∧
    ((lfsrStep 7)^[LFSR_SHORT_LENGTH] (lfsrSeed 7) = lfsrSeed 7) ∧
    (∀ k, 0 < k → k < LFSR_SHORT_LENGTH →
      (lfsrStep 7)^[k] (lfsrSeed 7) ≠ lfsrSeed 7) ∧
    (∀ bits i, noiseSample bits i = 1 ∨ noiseSample bits i = -1) := by
  obtain ⟨hitL, hneL⟩ := lfsrProbe_spec 15 32766 _ _ lfsrLong_probe
  obtain ⟨hitS, hneS⟩ := lfsrProbe_spec 7 126 _ _ lfsrShort_probe
  refine ⟨?_, ?_, ?_, ?_, ?_⟩
  · show (lfsrStep 15)^[32766 + 1] (lfsrSeed 15) = lfsrSeed 15
    rw [Function.iterate_succ_apply', hitL]
    decide
  · intro k hk0 hkn
    exact hneL k (by omega) (by
      have : k < 32767 := hkn
      omega)
  · show (lfsrStep 7)^[126 + 1] (lfsrSeed 7) = lfsrSeed 7
    rw [Function.iterate_succ_apply', hitS]
    decide
  · intro k hk0 hkn
    exact hneS k (by omega) (by
      have : k < 127 := hkn
      omega)
  · intro bits i
    by_cases h : ((lfsrStep bits)^[i] (lfsrSeed bits)) &&& 1 ≠ 0
    · left
      rw [noiseSample, if_pos h]
    · right
      rw [noiseSample, if_neg h]

/-- C4 at concrete data: one step away from the seed the register
differs from the seed (in both modes). -/
theorem lfsr_periodicity_witness :
    (0 < 1 ∧ 1 < LFSR_LONG_LENGTH ∧ 1 < LFSR_SHORT_LENGTH) ∧
    (lfsrStep 15)^[1] (lfsrSeed 15) ≠ lfsrSeed 15 ∧
    (lfsrStep 7)^[1] (lfsrSeed 7) ≠ lfsrSeed 7 :=
  ⟨⟨by decide, by decide, by decide⟩,
   lfsr_periodicity.2.1 1 (by decide) (by decide),
   lfsr_periodicity.2.2.2.1 1 (by decide) (by decide)⟩

/-- The event the arpeggiator schedules at position `i`. -/
theorem Arpeggiator.start_get (baseFreq : ℝ) (offsets : List ℚ)
    (speed startTime duration : ℚ) (i : ℕ)
    (hi : i < (Arpeggiator.start baseFreq offsets speed startTime duration).length) :
    (Arpeggiator.start baseFreq offsets speed startTime duration).get ⟨i, hi⟩ =
      { freq := baseFreq * semitonesToRatio
          ((if offsets.length > 0 then offsets else [0]).getD
            (i % (if offsets.length > 0 then offsets else [0]).length) 0)
        time := startTime + (i : ℚ) * (1 / speed) } := by
  rw [List.get_eq_getElem]
  simp only [Arpeggiator.start, List.getElem_map, List.getElem_range]

/-- The number of events the arpeggiator schedules. -/
theorem Arpeggiator.start_length (baseFreq : ℝ) (offsets : List ℚ)
    (speed startTime duration : ℚ) :
    (Arpeggiator.start baseFreq offsets speed startTime duration).length =
      (⌈duration / (1 / speed)⌉).toNat := by
  simp [Arpeggiator.start]

/-- C5: with non-empty offsets, `speed > 0` and a non-negative duration,
the arpeggiator schedules exactly `⌈duration·speed⌉` frequency-set
events; event `i` is at `startTime + i·(1/speed)` (so consecutive events
are spaced exactly `1/speed` apart) and sets the frequency to
`baseFreq · 2^(offsets[i mod len]/12)`. -/
theorem arpeggiator_step_schedule (baseFreq : ℝ) (offsets : List ℚ)
    (speed startTime duration : ℚ)
    (hoff : offsets ≠ []) (hspeed : 0 < speed) (hdur : 0 ≤ duration) :
    (((Arpeggiator.start baseFreq offsets speed startTime duration).length : ℤ) =
      ⌈duration * speed⌉) ∧
    (∀ i (hi : i <
        (Arpeggiator.start baseFreq offsets speed startTime duration).length),
      ((Arpeggiator.start baseFreq offsets speed startTime duration).get
          ⟨i, hi⟩).time = startTime + (i : ℚ) * (1 / speed)) ∧
    (∀ i (hi1 : i + 1 <
        (Arpeggiator.start baseFreq offsets speed startTime duration).length),
      ((Arpeggiator.start baseFreq offsets speed startTime duration).get
          ⟨i + 1, hi1⟩).time -
        ((Arpeggiator.start baseFreq offsets speed startTime duration).get
          ⟨i, Nat.lt_of_succ_lt hi1⟩).time = 1 / speed) ∧
    (∀ i (hi : i <
        (Arpeggiator.start baseFreq offsets speed startTime duration).length),
      ((Arpeggiator.start baseFreq offsets speed startTime duration).get
          ⟨i, hi⟩).freq =
        baseFreq * (2 : ℝ) ^ (((offsets.getD (i % offsets.length) 0 : ℚ) : ℝ) / 12)) := by
  have hsafe : (if offsets.length > 0 then offsets else [0]) = offsets :=
    if_pos (List.length_pos.mpr hoff)
  refine ⟨?_, ?_, ?_, ?_⟩
  · rw [Arpeggiator.start_length]
    rw [show duration / (1 / speed) = duration * speed by
      field_simp]
    exact Int.toNat_of_nonneg (Int.ceil_nonneg (mul_nonneg hdur (le_of_lt hspeed)))
  · intro i hi
    rw [Arpeggiator.start_get]
  · intro i hi1
    rw [Arpeggiator.start_get, Arpeggiator.start_get]
    push_cast
    ring
  · intro i hi
    rw [Arpeggiator.start_get, hsafe, semitonesToRatio]

/-- C5 at concrete data: a major-chord arpeggio `[0,4,7]` at 2 notes/sec
for 1 second from `t = 0` on a 440 Hz base. -/
theorem arpeggiator_step_schedule_witness :
    ([(0 : ℚ), 4, 7] ≠ []) ∧ ((0 : ℚ) < 2) ∧ ((0 : ℚ) ≤ 1) ∧
    ((((Arpeggiator.start 440 [0, 4, 7] 2 0 1).length : ℤ) = ⌈(1 : ℚ) * 2⌉) ∧
      (∀ i (hi : i < (Arpeggiator.start 440 [0, 4, 7] 2 0 1).length),
        ((Arpeggiator.start 440 [0, 4, 7] 2 0 1).get ⟨i, hi⟩).time =
          0 + (i : ℚ) * (1 / 2)) ∧
      (∀ i (hi1 : i + 1 < (Arpeggiator.start 440 [0, 4, 7] 2 0 1).length),
        ((Arpeggiator.start 440 [0, 4, 7] 2 0 1).get ⟨i + 1, hi1⟩).time -
          ((Arpeggiator.start 440 [0, 4, 7] 2 0 1).get
            ⟨i, Nat.lt_of_succ_lt hi1⟩).time = 1 / 2) ∧
      (∀ i (hi : i < (Arpeggiator.start 440 [0, 4, 7] 2 0 1).length),
        ((Arpeggiator.start 440 [0, 4, 7] 2 0 1).get ⟨i, hi⟩).freq =
          440 * (2 : ℝ) ^
            ((([(0 : ℚ), 4, 7].getD (i % [(0 : ℚ), 4, 7].length) 0 : ℚ) : ℝ) / 12))) :=
  ⟨by decide, by norm_num, by norm_num,
   arpeggiator_step_schedule 440 [0, 4, 7] 2 0 1
     (by decide) (by norm_num) (by norm_num)⟩

/-- On a lane sorted by step, `events.find(e => e.step > step)` returns
the next event: its step exceeds `step` and is minimal among all lane
events beyond `step`. -/
theorem find?_next_event_min (step : ℕ) :
    ∀ lane : List NoteEvent, lane.Pairwise (fun a b => a.step ≤ b.step) →
    ∀ nx, lane.find? (fun e => decide (step < e.step)) = some nx →
      step < nx.step ∧ ∀ e ∈ lane, step < e.step → nx.step ≤ e.step := by
  intro lane
  induction lane with
  | nil =>
    intro _ nx hfind
    simp at hfind
  | cons a t ih =>
    intro hsorted nx hfind
    rcases List.pairwise_cons.mp hsorted with ⟨hale, htail⟩
    by_cases ha : step < a.step
    · rw [List.find?_cons_of_pos _ (by simpa using ha)] at hfind
      obtain rfl := Option.some_inj.mp hfind
      refine ⟨ha, ?_⟩
      intro e he _
      rcases List.mem_cons.mp he with rfl | he'
      · exact le_refl _
      · exact hale e he'
    · rw [List.find?_cons_of_neg _ (by simpa using ha)] at hfind
      obtain ⟨hnx1, hnx2⟩ := ih htail nx hfind
      refine ⟨hnx1, ?_⟩
      intro e he hse
      rcases List.mem_cons.mp he with rfl | he'
      · exact absurd hse ha
      · exact hnx2 e he' hse

/-- C6: note-duration inference.  With an explicit duration the result
is that many steps in seconds; otherwise, on a step-sorted lane, it is
the distance to the next lane event (the minimal event beyond the
current step); otherwise the distance to pattern end — always converted
through the clock.  In particular, on the lane `[0,4,8]` the note at
step 0 without explicit duration lasts exactly 4 steps. -/
theorem sequencer_duration_inference (clock : Clock) (patternSteps : ℕ)
    (lane : List NoteEvent) (event : NoteEvent) (step : ℕ)
    (hsorted : lane.Pairwise (fun a b => a.step ≤ b.step)) :
    (∀ d, event.duration = some d →
      Sequencer.calculateNoteDuration clock patternSteps lane event step =
        clock.stepsToSeconds d) ∧
    (∀ nx, event.duration = Option.none →
      lane.find? (fun e => decide (step < e.step)) = some nx →
      Sequencer.calculateNoteDuration clock patternSteps lane event step =
          clock.stepsToSeconds ((nx.step : ℚ) - (step : ℚ)) ∧
        step < nx.step ∧
        (∀ e ∈ lane, step < e.step → nx.step ≤ e.step)) ∧
    (event.duration = Option.none →
      lane.find? (fun e => decide (step < e.step)) = Option.none →
      Sequencer.calculateNoteDuration clock patternSteps lane event step =
        clock.stepsToSeconds ((patternSteps : ℚ) - (step : ℚ))) ∧
    (∀ ev0 ev4 ev8 : NoteEvent, ev0.step = 0 → ev4.step = 4 → ev8.step = 8 →
      ev0.duration = Option.none →
      Sequencer.calculateNoteDuration clock patternSteps [ev0, ev4, ev8] ev0 0 =
        clock.stepsToSeconds 4) := by
  refine ⟨?_, ?_, ?_, ?_⟩
  · intro d hd
    unfold Sequencer.calculateNoteDuration
    rw [hd]
  · intro nx hd hfind
    refine ⟨?_, (find?_next_event_min step lane hsorted nx hfind).1,
      (find?_next_event_min step lane hsorted nx hfind).2⟩
    unfold Sequencer.calculateNoteDuration
    rw [hd, hfind]
  · intro hd hfind
    unfold Sequencer.calculateNoteDuration
    rw [hd, hfind]
  · intro ev0 ev4 ev8 h0 h4 h8 hd
    unfold Sequencer.calculateNoteDuration
    rw [hd, List.find?_cons_of_neg _ (by simp [h0]),
      List.find?_cons_of_pos _ (by simp [h4])]
    dsimp only
    rw [h4]
    norm_num

/-- C6 at concrete data: the lane `[0,4,8]` at 120 BPM, 4 steps/beat,
16-step pattern, inferring the duration of the note at step 0. -/
theorem sequencer_duration_inference_witness :
    sampleLane.Pairwise (fun a b => a.step ≤ b.step) ∧
    ((∀ d, sampleLaneEvent0.duration = some d →
        Sequencer.calculateNoteDuration sampleClock 16 sampleLane sampleLaneEvent0 0 =
          sampleClock.stepsToSeconds d) ∧
      (∀ nx, sampleLaneEvent0.duration = Option.none →
        sampleLane.find? (fun e => decide (0 < e.step)) = some nx →
        Sequencer.calculateNoteDuration sampleClock 16 sampleLane sampleLaneEvent0 0 =
            sampleClock.stepsToSeconds ((nx.step : ℚ) - ((0 : ℕ) : ℚ)) ∧
          0 < nx.step ∧
          (∀ e ∈ sampleLane, 0 < e.step → nx.step ≤ e.step)) ∧
      (sampleLaneEvent0.duration = Option.none →
        sampleLane.find? (fun e => decide (0 < e.step)) = Option.none →
        Sequencer.calculateNoteDuration sampleClock 16 sampleLane sampleLaneEvent0 0 =
          sampleClock.stepsToSeconds (((16 : ℕ) : ℚ) - ((0 : ℕ) : ℚ))) ∧
      (∀ ev0 ev4 ev8 : NoteEvent, ev0.step = 0 → ev4.step = 4 → ev8.step = 8 →
        ev0.duration = Option.none →
        Sequencer.calculateNoteDuration sampleClock 16 [ev0, ev4, ev8] ev0 0 =
          sampleClock.stepsToSeconds 4)) :=
  ⟨by decide,
   sequencer_duration_inference sampleClock 16 sampleLane sampleLaneEvent0 0 (by decide)⟩

/-- C8: for duty 0.5 the pulse harmonic table has zero real
coefficients everywhere, zero imaginary coefficients at every even
harmonic, and non-zero imaginary coefficients at every odd harmonic in
range. -/
theorem pulse_duty_half_odd_harmonics (n : ℕ) (h1 : 1 ≤ n)
    (h2 : n < PULSE_HARMONICS) :
    createPulseWaveReal n = 0 ∧
    (n % 2 = 0 → createPulseWaveImag (1 / 2) n = 0) ∧
    (n % 2 = 1 → createPulseWaveImag (1 / 2) n ≠ 0) := by
  have hn0 : n ≠ 0 := by omega
  refine ⟨rfl, ?_, ?_⟩
  · intro heven
    obtain ⟨m, rfl⟩ : ∃ m, n = 2 * m := ⟨n / 2, by omega⟩
    unfold createPulseWaveImag
    rw [if_neg hn0]
    have hangle : ((2 * m : ℕ) : ℝ) * Real.pi * (1 / 2) = (m : ℝ) * Real.pi := by
      push_cast
      ring
    rw [hangle, Real.sin_nat_mul_pi]
    ring
  · intro hodd
    obtain ⟨m, rfl⟩ : ∃ m, n = 2 * m + 1 := ⟨n / 2, by omega⟩
    unfold createPulseWaveImag
    rw [if_neg hn0]
    have hangle : ((2 * m + 1 : ℕ) : ℝ) * Real.pi * (1 / 2) =
        (m : ℝ) * Real.pi + Real.pi / 2 := by
      push_cast
      ring
    rw [hangle, Real.sin_add_pi_div_two]
    have hcos : Real.cos ((m : ℝ) * Real.pi) ≠ 0 := by
      have habs := Real.abs_cos_int_mul_pi (m : ℤ)
      push_cast at habs
      intro h0
      rw [h0] at habs
      simp at habs
    apply mul_ne_zero
    · apply div_ne_zero two_ne_zero
      apply mul_ne_zero
      · exact Nat.cast_ne_zero.mpr (by omega)
      · exact Real.pi_ne_zero
    · exact hcos

/-- C8 at concrete data: harmonic 2 carries no energy, harmonic 1
does. -/
theorem pulse_duty_half_odd_harmonics_witness :
    (1 ≤ 2 ∧ 2 < PULSE_HARMONICS ∧ 2 % 2 = 0) ∧
    createPulseWaveImag (1 / 2) 2 = 0 ∧
    (1 ≤ 1 ∧ 1 < PULSE_HARMONICS ∧ 1 % 2 = 1) ∧
    createPulseWaveImag (1 / 2) 1 ≠ 0 :=
  ⟨⟨by norm_num, by norm_num [PULSE_HARMONICS], by norm_num⟩,
   (pulse_duty_half_odd_harmonics 2 (by norm_num)
     (by norm_num [PULSE_HARMONICS])).2.1 rfl,
   ⟨by norm_num, by norm_num [PULSE_HARMONICS], by norm_num⟩,
   (pulse_duty_half_odd_harmonics 1 (by norm_num)
     (by norm_num [PULSE_HARMONICS])).2.2 rfl⟩

/-- C9 counterexample: the all-8 wavetable does *not* normalize to the
all-zero signal: `(8 / 7.5) - 1 = 1/15 ≠ 0`, so the normalized table is
not the zero signal. -/
theorem wavetable_all8_not_all_zero :
    normalizeWavetableSample 8 ≠ 0 ∧ normalizeWavetableSample 8 = 1 / 15 ∧
    (List.replicate 32 (8 : ℚ)).map normalizeWavetableSample ≠
      List.replicate 32 (0 : ℚ) := by
  have h : normalizeWavetableSample 8 = 1 / 15 := by
    norm_num [normalizeWavetableSample]
  refine ⟨by rw [h]; norm_num, h, ?_⟩
  rw [List.map_replicate, h]
  intro hcontra
  have h0 : (List.replicate 32 ((1 : ℚ) / 15)).getD 0 0 =
      (List.replicate 32 (0 : ℚ)).getD 0 0 := by rw [hcontra]
  rw [List.getD_eq_getElem?_getD, List.getD_eq_getElem?_getD,
    List.getElem?_replicate_of_lt (by norm_num),
    List.getElem?_replicate_of_lt (by norm_num)] at h0
  simp at h0

/-- Geometric-sum orthogonality: for `1 ≤ k < 32` the 32 unit-circle
points `exp(2πikn/32)` sum to zero. -/
theorem sum_exp_unit_circle (k : ℕ) (h1 : 1 ≤ k) (h2 : k < 32) :
    ∑ n ∈ Finset.range 32,
      Complex.exp (((2 * Real.pi * k * n / 32 : ℝ) : ℂ) * Complex.I) = 0 := by
  set θ : ℝ := 2 * Real.pi * k / 32 with hθ
  have hterm : ∀ n ∈ Finset.range 32,
      Complex.exp (((2 * Real.pi * k * n / 32 : ℝ) : ℂ) * Complex.I) =
        Complex.exp ((θ : ℂ) * Complex.I) ^ n := by
    intro n _
    rw [← Complex.exp_nat_mul]
    congr 1
    rw [hθ]
    push_cast
    ring
  rw [Finset.sum_congr rfl hterm]
  have hne : Complex.exp ((θ : ℂ) * Complex.I) ≠ 1 := by
    intro hone
    rw [Complex.exp_eq_one_iff] at hone
    obtain ⟨m, hm⟩ := hone
    have him := congrArg Complex.im hm
    simp at him
    rw [hθ] at him
    have hkm : (k : ℝ) = 32 * m := by
      have hpi := Real.pi_pos
      nlinarith [him]
    have hkz : (k : ℤ) = 32 * m := by exact_mod_cast hkm
    omega
  have hpow : Complex.exp ((θ : ℂ) * Complex.I) ^ 32 = 1 := by
    rw [← Complex.exp_nat_mul]
    have harg : (32 : ℕ) * ((θ : ℂ) * Complex.I) =
        (k : ℤ) * (2 * (Real.pi : ℂ) * Complex.I) := by
      rw [hθ]
      push_cast
      ring
    rw [harg]
    exact Complex.exp_int_mul_two_pi_mul_I k
  rw [geom_sum_eq hne, hpow]
  simp

/-- The cosine row sums of the 32-point DFT vanish off the DC row. -/
theorem sum_cos_eq_zero (k : ℕ) (h1 : 1 ≤ k) (h2 : k < 32) :
    ∑ n ∈ Finset.range 32, Real.cos (2 * Real.pi * k * n / 32) = 0 := by
  have hz := sum_exp_unit_circle k h1 h2
  have hre := congrArg Complex.re hz
  rw [Complex.re_sum] at hre
  calc ∑ n ∈ Finset.range 32, Real.cos (2 * Real.pi * k * n / 32)
      = ∑ n ∈ Finset.range 32,
          (Complex.exp (((2 * Real.pi * k * n / 32 : ℝ) : ℂ) * Complex.I)).re :=
        Finset.sum_congr rfl fun n _ => (Complex.exp_ofReal_mul_I_re _).symm
    _ = 0 := hre

/-- The sine row sums of the 32-point DFT vanish off the DC row. -/
theorem sum_sin_eq_zero (k : ℕ) (h1 : 1 ≤ k) (h2 : k < 32) :
    ∑ n ∈ Finset.range 32, Real.sin (2 * Real.pi * k * n / 32) = 0 := by
  have hz := sum_exp_unit_circle k h1 h2
  have him := congrArg Complex.im hz
  rw [Complex.im_sum] at him
  calc ∑ n ∈ Finset.range 32, Real.sin (2 * Real.pi * k * n / 32)
      = ∑ n ∈ Finset.range 32,
          (Complex.exp (((2 * Real.pi * k * n / 32 : ℝ) : ℂ) * Complex.I)).im :=
        Finset.sum_congr rfl fun n _ => (Complex.exp_ofReal_mul_I_im _).symm
    _ = 0 := him

/-- C9 (amended): the all-8 wavetable normalizes to the constant `1/15`
signal (not the zero signal), whose DFT has every harmonic coefficient
`1 ≤ k < 32` equal to zero — only the DC term `real[0] = 1/15` remains,
which the periodic-wave output ignores, so the channel is silent at
every frequency. -/
theorem wavetable_all8_silent (k : ℕ) (h1 : 1 ≤ k) (h2 : k < WAVETABLE_SIZE) :
    createWavetableWaveReal (List.replicate 32 8) k = 0 ∧
    createWavetableWaveImag (List.replicate 32 8) k = 0 ∧
    createWavetableWaveReal (List.replicate 32 8) 0 = 1 / 15 := by
  have h2' : k < 32 := h2
  have hnorm : (List.replicate 32 (8 : ℚ)).map normalizeWavetableSample =
      List.replicate 32 ((1 : ℚ) / 15) := by
    rw [List.map_replicate]
    norm_num [normalizeWavetableSample]
  have hgetD : ∀ n ∈ Finset.range 32,
      (List.replicate 32 ((1 : ℚ) / 15)).getD n 0 = 1 / 15 := by
    intro n hn
    rw [List.getD_eq_getElem?_getD,
      List.getElem?_replicate_of_lt (Finset.mem_range.mp hn)]
    rfl
  refine ⟨?_, ?_, ?_⟩
  · show (∑ n ∈ Finset.range 32,
        ((((List.replicate 32 (8 : ℚ)).map normalizeWavetableSample).getD n 0 : ℚ) : ℝ) *
          Real.cos (2 * Real.pi * k * n / 32)) / 32 = 0
    rw [hnorm]
    have hterm : ∀ n ∈ Finset.range 32,
        (((List.replicate 32 ((1 : ℚ) / 15)).getD n 0 : ℚ) : ℝ) *
          Real.cos (2 * Real.pi * k * n / 32) =
        (((1 : ℚ) / 15 : ℚ) : ℝ) * Real.cos (2 * Real.pi * k * n / 32) := by
      intro n hn
      rw [hgetD n hn]
    rw [Finset.sum_congr rfl hterm, ← Finset.mul_sum, sum_cos_eq_zero k h1 h2']
    simp
  · show (∑ n ∈ Finset.range 32,
        -(((((List.replicate 32 (8 : ℚ)).map normalizeWavetableSample).getD n 0 : ℚ) : ℝ) *
          Real.sin (2 * Real.pi * k * n / 32))) / 32 = 0
    rw [hnorm]
    have hterm : ∀ n ∈ Finset.range 32,
        -((((List.replicate 32 ((1 : ℚ) / 15)).getD n 0 : ℚ) : ℝ) *
          Real.sin (2 * Real.pi * k * n / 32)) =
        -((((1 : ℚ) / 15 : ℚ) : ℝ) * Real.sin (2 * Real.pi * k * n / 32)) := by
      intro n hn
      rw [hgetD n hn]
    rw [Finset.sum_congr rfl hterm, Finset.sum_neg_distrib, ← Finset.mul_sum,
      sum_sin_eq_zero k h1 h2']
    simp
  · show (∑ n ∈ Finset.range 32,
        ((((List.replicate 32 (8 : ℚ)).map normalizeWavetableSample).getD n 0 : ℚ) : ℝ) *
          Real.cos (2 * Real.pi * (0 : ℕ) * n / 32)) / 32 = 1 / 15
    rw [hnorm]
    have hterm : ∀ n ∈ Finset.range 32,
        (((List.replicate 32 ((1 : ℚ) / 15)).getD n 0 : ℚ) : ℝ) *
          Real.cos (2 * Real.pi * (0 : ℕ) * n / 32) =
        (((1 : ℚ) / 15 : ℚ) : ℝ) := by
      intro n hn
      rw [hgetD n hn]
      norm_num
    rw [Finset.sum_congr rfl hterm, Finset.sum_const, Finset.card_range]
    norm_num

/-- C9 at concrete data: harmonic 1 of the all-8 wavetable vanishes. -/
theorem wavetable_all8_silent_witness :
    (1 ≤ 1 ∧ 1 < WAVETABLE_SIZE) ∧
    (createWavetableWaveReal (List.replicate 32 8) 1 = 0 ∧
      createWavetableWaveImag (List.replicate 32 8) 1 = 0 ∧
      createWavetableWaveReal (List.replicate 32 8) 0 = 1 / 15) :=
  ⟨⟨by norm_num, by norm_num [WAVETABLE_SIZE]⟩,
   wavetable_all8_silent 1 (by norm_num) (by norm_num [WAVETABLE_SIZE])⟩
